import Mathlib

/-!
Shallow embedding of the `_ThreadFront` session/pause coordinator
(`src/unnamed/part_000`) of the devtools client.

The coordinator is a single-threaded object mutated on synchronous turns
between asynchronous suspension points.  We embed it as a Lean structure
`ThreadState` together with pure functions for each operation; an
asynchronous suspension (an `await` of a remote round-trip) is embedded
as an explicit "interference" function `ThreadState → ThreadState`
standing for the turns the environment may run while the request is in
flight.  Events emitted with `this.emit(...)` are collected in returned
traces.  JavaScript `assert` failures are embedded as `Option`/`Except`
results, and JavaScript truthiness of optional values is made explicit.
-/

namespace ThreadFront

/-- Execution points are opaque string identifiers in the protocol. -/
abbrev ExecutionPoint := String

abbrev SourceId := String

/-- Kinds of sources in the protocol (`SourceKind`). -/
inductive SourceKind where
  | inlineScript
  | scriptSource
  | html
  | sourceMapped
  | prettyPrinted
  | other
deriving DecidableEq, Repr

/-- The `Source` record kept in the `sources` map:
`{ kind, url?, generatedSourceIds? }`. -/
structure Source where
  kind : SourceKind
  url : Option String
  generatedSourceIds : Option (List SourceId)
deriving DecidableEq, Repr

/-- The `PauseDescription` returned by the find-target commands:
a point, a time, and an optional frame (we keep only its presence,
as the coordinator only ever tests `!!frame`). -/
structure PauseDescription where
  point : ExecutionPoint
  time : Nat
  frame : Option Unit
deriving DecidableEq, Repr

/-- The slice of a `Pause` object the coordinator reads: its
`point` / `time` / `hasFrames` fields, each possibly unset
(the class populates them only after `create`/`instantiate`). -/
structure Pause where
  point : Option ExecutionPoint
  time : Option Nat
  hasFrames : Option Bool
deriving DecidableEq, Repr

/-- Breakpoint locations: `{ sourceId, line, column }`. -/
structure Location where
  sourceId : SourceId
  line : Nat
  column : Nat
deriving DecidableEq, Repr

/-- Events the coordinator emits.  `paused` carries the
`{ point, time, hasFrames }` payload; the `hasFrames` field is the raw
(possibly-undefined) value handed to `emit`. -/
inductive Event where
  | resumed
  | paused (point : ExecutionPoint) (time : Nat) (hasFrames : Option Bool)
deriving DecidableEq, Repr

/-- The mutable state of the `_ThreadFront` singleton (the fields the
claims touch).  Maps are embedded as association lists, sets as lists. -/
structure ThreadState where
  currentPoint : ExecutionPoint
  currentTime : Nat
  currentPointHasFrames : Bool
  currentPause : Option Pause
  asyncPauses : List Pause
  sessionId : Option String
  sources : List (SourceId × Source)
  originalSources : List (SourceId × List SourceId)
  preferredGeneratedSources : List SourceId
  resumeTargets : List (String × PauseDescription)
  resumeTargetEpoch : Nat
  numPendingInvalidateCommands : Nat
  invalidateCommandWaiters : List Nat
  allPauses : List (ExecutionPoint × Pause)
  breakpoints : List (String × Location)
  warpCallback :
    Option (ExecutionPoint → Nat → Option Bool →
      Option (ExecutionPoint × Nat × Option Bool))

/-- Association-list lookup, embedding `Map.prototype.get`. -/
def alookup {α : Type} (m : List (String × α)) (k : String) : Option α :=
  match m with
  | [] => none
  | (k', v) :: rest => if k' = k then some v else alookup rest k

/-- Association-list insert, embedding `Map.prototype.set`. -/
def aset {α : Type} (m : List (String × α)) (k : String) (v : α) :
    List (String × α) :=
  match m with
  | [] => [(k, v)]
  | (k', v') :: rest =>
      if k' = k then (k', v) :: rest else (k', v') :: aset rest k v

/-- The `timeWarp(point, time, hasFrames, force)` (part_000 lines 228-250):
offer the destination to the warp callback unless `force`; set the
current position; clear the current pause and the async-pause chain;
emit `"paused"` with the (possibly substituted) arguments.  Returns the
new state and the emitted events; the speculative pre-caching it
triggers performs no state writes before its first suspension, so it
contributes nothing to the synchronous turn embedded here.
`warpDestination` is the substitution step, lines 231-240. -/
def warpDestination (st : ThreadState) (point : ExecutionPoint) (time : Nat)
    (hasFrames : Option Bool) (force : Bool) :
    ExecutionPoint × Nat × Option Bool :=
  match st.warpCallback, force with
  | some cb, false =>
      match cb point time hasFrames with
      | some (p, t, h) => (p, t, h)
      | none => (point, time, hasFrames)
  | _, _ => (point, time, hasFrames)

def timeWarp (st : ThreadState) (point : ExecutionPoint) (time : Nat)
    (hasFrames : Option Bool) (force : Bool) :
    ThreadState × List Event :=
  let (point, time, hasFrames) := warpDestination st point time hasFrames force
  let st :=
    { st with
      currentPoint := point
      currentTime := time
      currentPointHasFrames := hasFrames.getD false
      currentPause := none
      asyncPauses := [] }
  (st, [Event.paused point time hasFrames])

/-- JavaScript truthiness of the `assert(point && time && typeof
hasFrames === "boolean")` guard in `timeWarpToPause` (line 256): the
string `point` must be present and non-empty, the number `time` present
and non-zero, and `hasFrames` present (any boolean passes the typeof
test). -/
def pauseAssertGuard (p : Pause) : Bool :=
  match p.point, p.time, p.hasFrames with
  | some pt, some t, some _ => pt ≠ "" && t ≠ 0
  | _, _, _ => false

/-- The `timeWarpToPause(pause)` (part_000 lines 252-265): assert the pause
carries point/time/hasFrames, install it as current pause, update the
position, clear the async chain and emit `"paused"`.  `none` embeds the
assertion failure. -/
def timeWarpToPause (st : ThreadState) (pause : Pause) :
    Option (ThreadState × List Event) :=
  match pause.point, pause.time, pause.hasFrames with
  | some point, some time, some hasFrames =>
      if point = "" || time = 0 then none
      else
        let st :=
          { st with
            currentPoint := point
            currentTime := time
            currentPointHasFrames := hasFrames
            currentPause := some pause
            asyncPauses := [] }
        some (st, [Event.paused point time (some hasFrames)])
  | _, _, _ => none

/-- The `ensurePause(point, time)` (lines 405-415): assert a session,
return the cached pause for the point or create, record and return a
fresh one. -/
def ensurePause (st : ThreadState) (point : ExecutionPoint) (time : Nat) :
    Option (ThreadState × Pause) :=
  match st.sessionId with
  | none => none
  | some _ =>
      match alookup st.allPauses point with
      | some pause => some (st, pause)
      | none =>
          let pause : Pause := { point := some point, time := some time, hasFrames := none }
          some ({ st with allPauses := aset st.allPauses point pause }, pause)

/-- The `ensureCurrentPause()` (lines 417-421). -/
def ensureCurrentPause (st : ThreadState) : Option ThreadState :=
  match st.currentPause with
  | some _ => some st
  | none =>
      match ensurePause st st.currentPoint st.currentTime with
      | none => none
      | some (st', pause) => some { st' with currentPause := some pause }

/-- Outcome of `getFrames()`: either the synchronous empty array,
produced without creating or consulting any `Pause`, or a delegation of
the request to the (now materialized) current pause's `getFrames()`
remote query. -/
inductive FramesOutcome where
  | emptyNoPause
  | fromPause (p : Pause)
deriving DecidableEq, Repr

/-- The `getFrames()` (lines 423-430): at a frameless position return `[]`
immediately; otherwise materialize the current pause and delegate to
it.  `none` embeds the `ensurePause` assertion failure. -/
def getFrames (st : ThreadState) : Option (FramesOutcome × ThreadState) :=
  if !st.currentPointHasFrames then
    some (FramesOutcome.emptyNoPause, st)
  else
    match ensureCurrentPause st with
    | none => none
    | some st' =>
        match st'.currentPause with
        | some p => some (FramesOutcome.fromPause p, st')
        | none => none

/-- The `getSourceKind(sourceId)` (lines 288-291). -/
def getSourceKind (st : ThreadState) (sourceId : SourceId) : Option SourceKind :=
  (alookup st.sources sourceId).map (·.kind)

/-- The `isMinifiedSource(sourceId)` (lines 898-904): whether some original
of the source is pretty printed. -/
def isMinifiedSource (st : ThreadState) (sourceId : SourceId) : Bool :=
  ((alookup st.originalSources sourceId).getD []).any fun id =>
    match alookup st.sources id with
    | some info => info.kind = SourceKind.prettyPrinted
    | none => false

/-- Resolution of a source's kind through its minified twin when the
source is pretty printed (`_chooseSourceId` lines 821-831 and
`isSourceMappedSource` lines 911-921).  `early` is a bailout when the
twin is unknown; `fail` is the `assert(kind != "prettyPrinted")`
failure.  A present-but-empty `generatedSourceIds` array indexes out of
bounds in the JavaScript and also yields the bailout. -/
inductive KindResolution where
  | early
  | fail
  | kind (k : SourceKind)
deriving DecidableEq, Repr

def resolveKind (st : ThreadState) (info : Source) : KindResolution :=
  if info.kind = SourceKind.prettyPrinted then
    match info.generatedSourceIds with
    | some (g :: _) =>
        match alookup st.sources g with
        | none => KindResolution.early
        | some minifiedInfo =>
            if minifiedInfo.kind = SourceKind.prettyPrinted then KindResolution.fail
            else KindResolution.kind minifiedInfo.kind
    | _ => KindResolution.early
  else KindResolution.kind info.kind

/-- The `isSourceMappedSource(sourceId)` (lines 906-923); `none` embeds the
assertion failure on a pretty-printed twin. -/
def isSourceMappedSource (st : ThreadState) (sourceId : SourceId) : Option Bool :=
  match alookup st.sources sourceId with
  | none => some false
  | some info =>
      match resolveKind st info with
      | KindResolution.early => some false
      | KindResolution.fail => none
      | KindResolution.kind k => some (k = SourceKind.sourceMapped)

/-- The `preferSource(sourceId, value)` (lines 925-932): asserts the source
is not source mapped, then adds to or removes from the
preferred-generated-sources set. -/
def preferSource (st : ThreadState) (sourceId : SourceId) (value : Bool) :
    Option ThreadState :=
  match isSourceMappedSource st sourceId with
  | none => none
  | some true => none
  | some false =>
      if value then
        some { st with preferredGeneratedSources :=
          if sourceId ∈ st.preferredGeneratedSources then
            st.preferredGeneratedSources
          else st.preferredGeneratedSources ++ [sourceId] }
      else
        some { st with preferredGeneratedSources :=
          st.preferredGeneratedSources.filter (· ≠ sourceId) }

/-- Result of `_chooseSourceId`: `{ sourceId, alternateId? }`. -/
structure ChosenSource where
  sourceId : SourceId
  alternateId : Option SourceId
deriving DecidableEq, Repr

/-- The generated/original classification loop of `_chooseSourceId`
(lines 813-855), including its early returns and the final preference
choice; `none` embeds the assertion failures (`assert(!generatedId)`,
`assert(originalId)`, pretty-printed twin). -/
def chooseSourceIdAux (st : ThreadState) :
    List SourceId → Option SourceId → Option SourceId → Option ChosenSource
  | [], generatedId, originalId =>
      match generatedId, originalId with
      | none, none => none
      | none, some o => some ⟨o, none⟩
      | some g, none => some ⟨g, none⟩
      | some g, some o =>
          if g ∈ st.preferredGeneratedSources then some ⟨g, some o⟩
          else some ⟨o, some g⟩
  | id :: rest, generatedId, originalId =>
      match alookup st.sources id with
      | none => some ⟨id, none⟩
      | some info =>
          match resolveKind st info with
          | KindResolution.early => some ⟨id, none⟩
          | KindResolution.fail => none
          | KindResolution.kind k =>
              if k = SourceKind.sourceMapped then
                chooseSourceIdAux st rest generatedId (some id)
              else
                match generatedId with
                | some _ => none
                | none => chooseSourceIdAux st rest (some id) originalId

/-- The `_chooseSourceId(sourceIds)` (lines 803-855): drop inline scripts
when an HTML container is present, drop minified sources, then classify
and choose. -/
def chooseSourceId (st : ThreadState) (sourceIds : List SourceId) :
    Option ChosenSource :=
  let sourceIds :=
    if sourceIds.any (fun id => getSourceKind st id = some SourceKind.html) then
      sourceIds.filter (fun id => getSourceKind st id ≠ some SourceKind.inlineScript)
    else sourceIds
  let sourceIds := sourceIds.filter (fun id => !isMinifiedSource st id)
  chooseSourceIdAux st sourceIds none none

/-- Push a list of ids onto a worklist whose head is the top of the
JavaScript array (`forEach(id => worklist.push(id))`). -/
def pushAll (ids : List SourceId) (w : List SourceId) : List SourceId :=
  ids.foldl (fun w i => i :: w) w

/-- The worklist loop of `_getAlternateSourceIds` (lines 878-895),
with explicit fuel; `rv` is kept in insertion order (the value of
`[...rv]`).  `none` embeds both the `assert(sources)` failure and fuel
exhaustion (which cannot occur at `altFuel`). -/
def altSourceIdsAux (st : ThreadState) :
    Nat → List SourceId → List SourceId → Option (List SourceId)
  | _, [], rv => some rv
  | 0, _ :: _, _ => none
  | Nat.succ n, id :: rest, rv =>
      if id ∈ rv then altSourceIdsAux st n rest rv
      else
        match alookup st.sources id with
        | none => none
        | some info =>
            altSourceIdsAux st n
              (pushAll ((alookup st.originalSources id).getD [])
                (pushAll (info.generatedSourceIds.getD []) rest))
              (rv ++ [id])

/-- Fuel bound for the worklist loop: every processed entry is either a
skip of a previously pushed id or a visit of a distinct id recorded in
`sources`, and pushes are bounded by the adjacency lists. -/
def altFuel (st : ThreadState) : Nat :=
  1 + st.sources.length +
    st.sources.foldl (fun n p => n + (p.2.generatedSourceIds.getD []).length) 0 +
    st.originalSources.foldl (fun n p => n + p.2.length) 0

/-- The `_getAlternateSourceIds(sourceId)` (lines 878-895). -/
def getAlternateSourceIds (st : ThreadState) (sourceId : SourceId) :
    Option (List SourceId) :=
  altSourceIdsAux st (altFuel st) [sourceId] []

/-- The partition loop of `_groupSourceIds` (lines 866-875), with fuel
`sourceIds.length` (each round removes at least the head id, which
always belongs to its own group). -/
def groupSourceIdsAux (st : ThreadState) :
    Nat → List SourceId → Option (List (List SourceId))
  | _, [] => some []
  | 0, _ :: _ => none
  | Nat.succ n, id :: rest =>
      match getAlternateSourceIds st id with
      | none => none
      | some alt =>
          let group := alt.filter (fun i => (id :: rest).contains i)
          match groupSourceIdsAux st n
              ((id :: rest).filter (fun i => !group.contains i)) with
          | none => none
          | some groups => some (group :: groups)

/-- The `_groupSourceIds(sourceIds)` (lines 866-875). -/
def groupSourceIds (st : ThreadState) (sourceIds : List SourceId) :
    Option (List (List SourceId)) :=
  groupSourceIdsAux st sourceIds.length sourceIds

/-- The `_chooseSourceIdList(sourceIds)` (lines 859-862). -/
def chooseSourceIdList (st : ThreadState) (sourceIds : List SourceId) :
    Option (List ChosenSource) :=
  match groupSourceIds st sourceIds with
  | none => none
  | some groups => groups.mapM (chooseSourceId st)

/-- The six find-target commands of `client.Debugger` used by the
resume family and the cache (lines 493-515, 624-645). -/
inductive FindTargetCommand where
  | findRewindTarget
  | findResumeTarget
  | findReverseStepOverTarget
  | findStepOverTarget
  | findStepInTarget
  | findStepOutTarget
deriving DecidableEq, Repr

/-- The `command.name`, the JavaScript function name used in the cache key
`` `${point}:${command.name}` `` (line 581). -/
def commandName : FindTargetCommand → String
  | FindTargetCommand.findRewindTarget => "findRewindTarget"
  | FindTargetCommand.findResumeTarget => "findResumeTarget"
  | FindTargetCommand.findReverseStepOverTarget => "findReverseStepOverTarget"
  | FindTargetCommand.findStepOverTarget => "findStepOverTarget"
  | FindTargetCommand.findStepInTarget => "findStepInTarget"
  | FindTargetCommand.findStepOutTarget => "findStepOutTarget"

/-- The `_findResumeTarget(point, command)` (lines 577-594).  `remote` is
the value the remote query resolves with; `interfere` stands for the
coordinator turns the environment runs while the query is in flight
(there is no suspension on a cache hit).  Returns the target handed to
the caller, the state at return, and whether a remote round-trip was
issued; `none` embeds the `assert(this.sessionId)` failure. -/
def findResumeTarget (st : ThreadState) (point : ExecutionPoint)
    (command : FindTargetCommand) (remote : PauseDescription)
    (interfere : ThreadState → ThreadState) :
    Option (PauseDescription × ThreadState × Bool) :=
  match st.sessionId with
  | none => none
  | some _ =>
      let key := point ++ ":" ++ commandName command
      match alookup st.resumeTargets key with
      | some knownTarget => some (knownTarget, st, false)
      | none =>
          let epoch := st.resumeTargetEpoch
          let st' := interfere st
          let st'' :=
            if epoch = st'.resumeTargetEpoch then
              { st' with resumeTargets := aset st'.resumeTargets key remote }
            else st'
          some (remote, st'', true)

/-- The synchronous prefix of `_invalidateResumeTargets`
(lines 548-550): clear the cache, advance the epoch, bump the
pending-command counter — all before the callback starts. -/
def invalidateBegin (st : ThreadState) : ThreadState :=
  { st with
    resumeTargets := []
    resumeTargetEpoch := st.resumeTargetEpoch + 1
    numPendingInvalidateCommands := st.numPendingInvalidateCommands + 1 }

/-- The `finally` clause of `_invalidateResumeTargets` (lines 554-560):
decrement the counter; exactly when it reaches zero, release every
registered waiter and re-trigger `_precacheResumeTargets`.  Returns the
new state, the released waiters, and whether pre-caching was
re-triggered. -/
def invalidateFinish (st : ThreadState) : ThreadState × List Nat × Bool :=
  if st.numPendingInvalidateCommands - 1 = 0 then
    ({ st with
        numPendingInvalidateCommands := st.numPendingInvalidateCommands - 1
        invalidateCommandWaiters := [] },
      st.invalidateCommandWaiters, true)
  else
    ({ st with
        numPendingInvalidateCommands := st.numPendingInvalidateCommands - 1 },
      [], false)

/-- The `_invalidateResumeTargets(callback)` (lines 547-561).  The callback
is embedded as a state transformer together with its outcome flag
(`true` = the returned promise resolved, `false` = it rejected); the
`finally` clause runs in either case, and the outcome propagates to the
operation's own promise afterwards.  Returns the final state, the
released waiters, whether pre-caching was re-triggered, and the
propagated outcome. -/
def invalidateResumeTargets (st : ThreadState)
    (callback : ThreadState → ThreadState × Bool) :
    ThreadState × List Nat × Bool × Bool :=
  let st1 := invalidateBegin st
  let (st2, ok) := callback st1
  let (st3, released, retrig) := invalidateFinish st2
  (st3, released, retrig, ok)

/-- The `waitForInvalidateCommandsToFinish()` (lines 568-575): when no
command is pending the function returns immediately (it returns
`undefined`, embedded as `none`); otherwise it registers a resolve hook
for a fresh waiter `w` and returns the corresponding promise. -/
def waitForInvalidateCommandsToFinish (st : ThreadState) (w : Nat) :
    ThreadState × Option Nat :=
  if st.numPendingInvalidateCommands = 0 then (st, none)
  else
    ({ st with invalidateCommandWaiters := st.invalidateCommandWaiters ++ [w] },
      some w)

/-- The `setBreakpoint(sourceId, line, column, condition)` (lines 350-369).
`remote` is the outcome of the `client.Debugger.setBreakpoint` round
trip: `Except.error ()` embeds a rejection (location invalid for the
source), `Except.ok id?` a resolution with the optional breakpoint id.
The inner callback rejects if the session assertion fails or the remote
call rejects; `_invalidateResumeTargets`'s promise is not awaited and
the `try`/`catch` swallows any error, so the caller's own promise
always resolves: the last component is the outcome surfaced to the
caller. -/
def setBreakpoint (st : ThreadState) (location : Location)
    (remote : Except Unit (Option String)) :
    ThreadState × List Nat × Bool × Except Unit Unit :=
  let callback : ThreadState → ThreadState × Bool := fun s =>
    match s.sessionId with
    | none => (s, false)
    | some _ =>
        match remote with
        | Except.error _ => (s, false)
        | Except.ok none => (s, true)
        | Except.ok (some breakpointId) =>
            if breakpointId = "" then (s, true)
            else
              ({ s with breakpoints := aset s.breakpoints breakpointId location },
                true)
  let (st', released, retrig, _ok) := invalidateResumeTargets st callback
  (st', released, retrig, Except.ok ())

/-- The two schedulings of the race inside `_resumeOperation`
(lines 596-622) between the zero-delay "resumed" tick and the
resolution of the awaited `_findResumeTarget` query. -/
inductive ResumeSchedule where
  | resolveFirst
  | tickFirst
deriving DecidableEq, Repr

/-- The `_resumeOperation(command, selectedPoint)` (lines 596-622), run to
completion after the initialization barrier, under either scheduling of
the tick/resolution race.  Under `resolveFirst` the query resolves
while `resumeEmitted` is still false, so the resolution turn does not
warp; the tick then emits `"resumed"` and, `resumeTarget` being set,
schedules `warpToTarget` on a further tick.  Under `tickFirst` the tick
emits `"resumed"` with `resumeTarget` still null, and the resolution
turn finds `resumeEmitted` set and warps directly.  Returns the final
state and the emitted events in order; `none` embeds the session
assertion failure in `_findResumeTarget`. -/
def resumeOperation (st : ThreadState) (command : FindTargetCommand)
    (selectedPoint : ExecutionPoint) (remote : PauseDescription)
    (interfere : ThreadState → ThreadState) (sched : ResumeSchedule) :
    Option (ThreadState × List Event) :=
  let point := if selectedPoint = "" then st.currentPoint else selectedPoint
  match sched with
  | ResumeSchedule.resolveFirst =>
      match findResumeTarget st point command remote interfere with
      | none => none
      | some (target, st1, _) =>
          let (st2, evs) :=
            timeWarp st1 target.point target.time (some target.frame.isSome) false
          some (st2, Event.resumed :: evs)
  | ResumeSchedule.tickFirst =>
      match findResumeTarget st point command remote interfere with
      | none => none
      | some (target, st1, _) =>
          let (st2, evs) :=
            timeWarp st1 target.point target.time (some target.frame.isSome) false
          some (st2, Event.resumed :: evs)

/-- The `rewind(point)` (lines 624-626). -/
def rewind (st : ThreadState) (point : ExecutionPoint)
    (remote : PauseDescription) (interfere : ThreadState → ThreadState)
    (sched : ResumeSchedule) : Option (ThreadState × List Event) :=
  resumeOperation st FindTargetCommand.findRewindTarget point remote interfere sched

/-- The `resume(point)` (lines 627-629). -/
def resume (st : ThreadState) (point : ExecutionPoint)
    (remote : PauseDescription) (interfere : ThreadState → ThreadState)
    (sched : ResumeSchedule) : Option (ThreadState × List Event) :=
  resumeOperation st FindTargetCommand.findResumeTarget point remote interfere sched

/-- The `reverseStepOver(point)` (lines 630-632). -/
def reverseStepOver (st : ThreadState) (point : ExecutionPoint)
    (remote : PauseDescription) (interfere : ThreadState → ThreadState)
    (sched : ResumeSchedule) : Option (ThreadState × List Event) :=
  resumeOperation st FindTargetCommand.findReverseStepOverTarget point remote
    interfere sched

/-- The `stepOver(point)` (lines 633-635). -/
def stepOver (st : ThreadState) (point : ExecutionPoint)
    (remote : PauseDescription) (interfere : ThreadState → ThreadState)
    (sched : ResumeSchedule) : Option (ThreadState × List Event) :=
  resumeOperation st FindTargetCommand.findStepOverTarget point remote interfere sched

/-- The `stepIn(point)` (lines 636-638). -/
def stepIn (st : ThreadState) (point : ExecutionPoint)
    (remote : PauseDescription) (interfere : ThreadState → ThreadState)
    (sched : ResumeSchedule) : Option (ThreadState × List Event) :=
  resumeOperation st FindTargetCommand.findStepInTarget point remote interfere sched

/-- The `stepOut(point)` (lines 639-641). -/
def stepOut (st : ThreadState) (point : ExecutionPoint)
    (remote : PauseDescription) (interfere : ThreadState → ThreadState)
    (sched : ResumeSchedule) : Option (ThreadState × List Event) :=
  resumeOperation st FindTargetCommand.findStepOutTarget point remote interfere sched

/-- A concrete coordinator state: the fields of the freshly constructed
`_ThreadFront` singleton (lines 83-152) with a session id installed by
`setSessionId`. -/
def sampleState : ThreadState :=
  { currentPoint := "0"
    currentTime := 0
    currentPointHasFrames := false
    currentPause := none
    asyncPauses := []
    sessionId := some "session"
    sources := []
    originalSources := []
    preferredGeneratedSources := []
    resumeTargets := []
    resumeTargetEpoch := 0
    numPendingInvalidateCommands := 0
    invalidateCommandWaiters := []
    allPauses := []
    breakpoints := []
    warpCallback := none }

/-- A plain generated source. -/
def srcGen : Source := { kind := SourceKind.scriptSource, url := none, generatedSourceIds := none }

/-- A source-mapped original of the source registered under `"G"`. -/
def srcOrig : Source := { kind := SourceKind.sourceMapped, url := none, generatedSourceIds := some ["G"] }

/-- A registry with a generated source `"G"` and its source-mapped
original `"O"`. -/
def pairState : ThreadState :=
  { sampleState with
    sources := [("G", srcGen), ("O", srcOrig)]
    originalSources := [("G", ["O"])] }

/-- A registry with an original `"A"` of the generated `"X"`, and an
unrelated source `"B"`. -/
def tripleState : ThreadState :=
  { sampleState with
    sources :=
      [("A", { kind := SourceKind.sourceMapped, url := none, generatedSourceIds := some ["X"] }),
       ("X", { kind := SourceKind.scriptSource, url := none, generatedSourceIds := none }),
       ("B", { kind := SourceKind.scriptSource, url := none, generatedSourceIds := none })]
    originalSources := [("X", ["A"])] }

/-- One hop of the generated/original adjacency the
`_getAlternateSourceIds` walk follows: from a registered source to one
of its `generatedSourceIds` or to one of its originals (the reverse
edges kept in `originalSources`). -/
def step (st : ThreadState) (a b : SourceId) : Prop :=
  ∃ info, alookup st.sources a = some info ∧
    (b ∈ info.generatedSourceIds.getD [] ∨
      b ∈ (alookup st.originalSources a).getD [])

/-- Transitive reachability over the generated/original adjacency. -/
def Reach (st : ThreadState) : SourceId → SourceId → Prop :=
  Relation.ReflTransGen (step st)

theorem alookup_aset_self {α : Type} (m : List (String × α)) (k : String) (v : α) :
    alookup (aset m k v) k = some v := by
  induction m with
  | nil => simp [aset, alookup]
  | cons p rest ih =>
      by_cases h : p.1 = k
      · simp [aset, alookup, h]
      · simp [aset, alookup, h, ih]

theorem mem_pushAll (x : SourceId) (ids w : List SourceId) :
    x ∈ pushAll ids w ↔ x ∈ ids ∨ x ∈ w := by
  induction ids generalizing w with
  | nil => simp [pushAll]
  | cons a as ih =>
      show x ∈ pushAll as (a :: w) ↔ _
      rw [ih]
      simp [List.mem_cons]
      tauto

/-- Every id on the worklist or already collected ends up in the
result of a successful `_getAlternateSourceIds` walk. -/
theorem altSourceIdsAux_mem (st : ThreadState) :
    ∀ (n : Nat) (w rv l : List SourceId),
      altSourceIdsAux st n w rv = some l →
      ∀ x, x ∈ rv ∨ x ∈ w → x ∈ l := by
  intro n
  induction n with
  | zero =>
      intro w rv l h x hx
      cases w with
      | nil =>
          simp [altSourceIdsAux] at h
          subst h
          simpa using hx
      | cons id rest => simp [altSourceIdsAux] at h
  | succ n ih =>
      intro w rv l h x hx
      cases w with
      | nil =>
          simp [altSourceIdsAux] at h
          subst h
          simpa using hx
      | cons id rest =>
          simp only [altSourceIdsAux] at h
          by_cases hid : id ∈ rv
          · rw [if_pos hid] at h
            refine ih rest rv l h x ?_
            rcases hx with hx | hx
            · exact Or.inl hx
            · rcases List.mem_cons.mp hx with rfl | hx
              · exact Or.inl hid
              · exact Or.inr hx
          · rw [if_neg hid] at h
            cases hlk : alookup st.sources id with
            | none => rw [hlk] at h; cases h
            | some info =>
                rw [hlk] at h
                refine ih _ _ l h x ?_
                rcases hx with hx | hx
                · exact Or.inl (by simp [hx])
                · rcases List.mem_cons.mp hx with rfl | hx
                  · exact Or.inl (by simp)
                  · exact Or.inr ((mem_pushAll _ _ _).mpr (Or.inr
                      ((mem_pushAll _ _ _).mpr (Or.inr hx))))

/-- Soundness of the walk: any property preserved along `step` edges
and holding of the worklist and the collected ids holds of every id in
the result. -/
theorem altSourceIdsAux_sound (st : ThreadState) (P : SourceId → Prop)
    (hP : ∀ a b, P a → step st a b → P b) :
    ∀ (n : Nat) (w rv l : List SourceId),
      (∀ x ∈ w, P x) → (∀ x ∈ rv, P x) →
      altSourceIdsAux st n w rv = some l → ∀ x ∈ l, P x := by
  intro n
  induction n with
  | zero =>
      intro w rv l hw hrv h x hx
      cases w with
      | nil =>
          simp [altSourceIdsAux] at h
          subst h
          exact hrv x hx
      | cons id rest => simp [altSourceIdsAux] at h
  | succ n ih =>
      intro w rv l hw hrv h x hx
      cases w with
      | nil =>
          simp [altSourceIdsAux] at h
          subst h
          exact hrv x hx
      | cons id rest =>
          simp only [altSourceIdsAux] at h
          by_cases hid : id ∈ rv
          · rw [if_pos hid] at h
            exact ih rest rv l (fun y hy => hw y (List.mem_cons_of_mem _ hy)) hrv h x hx
          · rw [if_neg hid] at h
            cases hlk : alookup st.sources id with
            | none => rw [hlk] at h; cases h
            | some info =>
                rw [hlk] at h
                have hPid : P id := hw id (List.mem_cons_self _ _)
                refine ih _ _ l ?_ ?_ h x hx
                · intro y hy
                  rcases (mem_pushAll _ _ _).mp hy with hy | hy
                  · exact hP id y hPid ⟨info, hlk, Or.inr hy⟩
                  · rcases (mem_pushAll _ _ _).mp hy with hy | hy
                    · exact hP id y hPid ⟨info, hlk, Or.inl hy⟩
                    · exact hw y (List.mem_cons_of_mem _ hy)
                · intro y hy
                  rcases List.mem_append.mp hy with hy | hy
                  · exact hrv y hy
                  · simp at hy
                    subst hy
                    exact hPid

/-- Closure of the walk's result under `step` edges: provided every
collected id already has its neighbours collected or queued, the result
of a successful walk is closed under the adjacency. -/
theorem altSourceIdsAux_closed (st : ThreadState) :
    ∀ (n : Nat) (w rv l : List SourceId),
      (∀ x ∈ rv, ∀ y, step st x y → y ∈ rv ∨ y ∈ w) →
      altSourceIdsAux st n w rv = some l →
      ∀ x ∈ l, ∀ y, step st x y → y ∈ l := by
  intro n
  induction n with
  | zero =>
      intro w rv l hinv h x hx y hstep
      cases w with
      | nil =>
          simp [altSourceIdsAux] at h
          subst h
          rcases hinv x hx y hstep with hy | hy
          · exact hy
          · cases hy
      | cons id rest => simp [altSourceIdsAux] at h
  | succ n ih =>
      intro w rv l hinv h x hx y hstep
      cases w with
      | nil =>
          simp [altSourceIdsAux] at h
          subst h
          rcases hinv x hx y hstep with hy | hy
          · exact hy
          · cases hy
      | cons id rest =>
          simp only [altSourceIdsAux] at h
          by_cases hid : id ∈ rv
          · rw [if_pos hid] at h
            refine ih rest rv l ?_ h x hx y hstep
            intro a ha b hab
            rcases hinv a ha b hab with hb | hb
            · exact Or.inl hb
            · rcases List.mem_cons.mp hb with rfl | hb
              · exact Or.inl hid
              · exact Or.inr hb
          · rw [if_neg hid] at h
            cases hlk : alookup st.sources id with
            | none => rw [hlk] at h; cases h
            | some info =>
                rw [hlk] at h
                refine ih _ _ l ?_ h x hx y hstep
                intro a ha b hab
                rcases List.mem_append.mp ha with ha | ha
                · rcases hinv a ha b hab with hb | hb
                  · exact Or.inl (List.mem_append.mpr (Or.inl hb))
                  · rcases List.mem_cons.mp hb with rfl | hb
                    · exact Or.inl (by simp)
                    · exact Or.inr ((mem_pushAll _ _ _).mpr (Or.inr
                        ((mem_pushAll _ _ _).mpr (Or.inr hb))))
                · simp at ha
                  subst ha
                  obtain ⟨info', hlk', hb⟩ := hab
                  rw [hlk] at hlk'
                  cases hlk'
                  rcases hb with hb | hb
                  · exact Or.inr ((mem_pushAll _ _ _).mpr (Or.inr
                      ((mem_pushAll _ _ _).mpr (Or.inl hb))))
                  · exact Or.inr ((mem_pushAll _ _ _).mpr (Or.inl hb))

/-- The result of a successful `_getAlternateSourceIds(s)` call is
exactly the set of ids reachable from `s` over the generated/original
adjacency. -/
theorem getAlternateSourceIds_mem (st : ThreadState) (s : SourceId)
    (l : List SourceId) (h : getAlternateSourceIds st s = some l) :
    ∀ x, x ∈ l ↔ Reach st s x := by
  intro x
  constructor
  · intro hx
    exact altSourceIdsAux_sound st (Reach st s)
      (fun a b ha hab => Relation.ReflTransGen.tail ha hab)
      (altFuel st) [s] [] l
      (by intro z hz; simp at hz; subst hz; exact Relation.ReflTransGen.refl)
      (by intro z hz; cases hz) h x hx
  · intro hx
    have hs : s ∈ l :=
      altSourceIdsAux_mem st (altFuel st) [s] [] l h s (Or.inr (by simp))
    have hcl := altSourceIdsAux_closed st (altFuel st) [s] [] l
      (by intro z hz; cases hz) h
    induction hx with
    | refl => exact hs
    | tail hab hbc ih => exact hcl _ ih _ hbc

/-- C3: after any `timeWarp(point, time, hasFrames, force)` call — on an
arbitrary state, hence in particular after any earlier sequence of such
calls — the coordinator's `currentPoint`, `currentTime` and
`currentPointHasFrames` equal the call's arguments, or the warp
callback's substitution when `force` is unset and the callback returns
non-null; `currentPause` is null, the async-pause chain is empty, and a
single `"paused"` event carrying exactly that point/time/hasFrames is
emitted, its payload agreeing with the already-updated state. -/
theorem timeWarp_state_and_event (st : ThreadState) (point : ExecutionPoint)
    (time : Nat) (hasFrames : Option Bool) (force : Bool) :
    timeWarp st point time hasFrames force =
      ({ st with
          currentPoint := (warpDestination st point time hasFrames force).1
          currentTime := (warpDestination st point time hasFrames force).2.1
          currentPointHasFrames :=
            (warpDestination st point time hasFrames force).2.2.getD false
          currentPause := none
          asyncPauses := [] },
        [Event.paused (warpDestination st point time hasFrames force).1
          (warpDestination st point time hasFrames force).2.1
          (warpDestination st point time hasFrames force).2.2]) ∧
    (force = true →
      warpDestination st point time hasFrames force = (point, time, hasFrames)) ∧
    (st.warpCallback = none →
      warpDestination st point time hasFrames force = (point, time, hasFrames)) ∧
    (∀ cb p t h, force = false → st.warpCallback = some cb →
      cb point time hasFrames = some (p, t, h) →
      warpDestination st point time hasFrames force = (p, t, h)) ∧
    (∀ cb, force = false → st.warpCallback = some cb →
      cb point time hasFrames = none →
      warpDestination st point time hasFrames force = (point, time, hasFrames)) := by
  refine ⟨?_, ?_, ?_, ?_, ?_⟩
  · rcases hw : warpDestination st point time hasFrames force with ⟨p, t, h⟩
    simp [timeWarp, hw]
  · intro hf
    subst hf
    cases hcb : st.warpCallback <;> simp [warpDestination, hcb]
  · intro hcb
    cases force <;> simp [warpDestination, hcb]
  · intro cb p t h hf hcb hcall
    subst hf
    simp [warpDestination, hcb, hcall]
  · intro cb hf hcb hcall
    subst hf
    simp [warpDestination, hcb, hcall]

/-- C10: whenever `currentPointHasFrames` is false, `getFrames()`
returns the empty array at once, leaving the state untouched — no
`Pause` is materialized or consulted and no remote request is issued. -/
theorem getFrames_frameless (st : ThreadState)
    (h : st.currentPointHasFrames = false) :
    getFrames st = some (FramesOutcome.emptyNoPause, st) := by
  simp [getFrames, h]

theorem getFrames_frameless_witness :
    sampleState.currentPointHasFrames = false ∧
    getFrames sampleState = some (FramesOutcome.emptyNoPause, sampleState) :=
  ⟨rfl, getFrames_frameless sampleState rfl⟩

/-- C9 counterexample: a `Pause` whose fields are all present and well
typed — `point` the non-empty string `"1"`, `time` the number `0`,
`hasFrames` a boolean — is rejected by `timeWarpToPause`: the
truthiness test `assert(point && time && ...)` treats the legitimate
timestamp `0` as a missing field, so the call aborts by assertion
instead of succeeding. -/
theorem timeWarpToPause_rejects_time_zero :
    (Pause.mk (some "1") (some 0) (some true)).point.isSome = true ∧
    (Pause.mk (some "1") (some 0) (some true)).time.isSome = true ∧
    (Pause.mk (some "1") (some 0) (some true)).hasFrames.isSome = true ∧
    timeWarpToPause sampleState (Pause.mk (some "1") (some 0) (some true)) = none := by
  exact ⟨rfl, rfl, rfl, rfl⟩

/-- C9 (amended): for every `Pause` whose `point`, `time` and
`hasFrames` fields are present *and truthy* — a non-empty point string,
a non-zero time, any boolean `hasFrames` — `timeWarpToPause` succeeds:
it installs the pause as current pause, updates the position from the
pause's fields, clears the async-pause chain and emits `"paused"`;
every other pause (a missing field, an empty point or a zero time) is a
contract violation that aborts via the fatal assertion. -/
theorem timeWarpToPause_truthy_fields (st : ThreadState) (pause : Pause) :
    (∀ point time hasFrames,
      pause.point = some point → pause.time = some time →
      pause.hasFrames = some hasFrames → point ≠ "" → time ≠ 0 →
      timeWarpToPause st pause =
        some ({ st with
            currentPoint := point
            currentTime := time
            currentPointHasFrames := hasFrames
            currentPause := some pause
            asyncPauses := [] },
          [Event.paused point time (some hasFrames)])) ∧
    (pauseAssertGuard pause = false → timeWarpToPause st pause = none) := by
  constructor
  · intro point time hasFrames hp ht hh hpe htz
    simp [timeWarpToPause, hp, ht, hh, hpe, htz]
  · intro hg
    cases hp : pause.point with
    | none => simp [timeWarpToPause, hp]
    | some point =>
        cases ht : pause.time with
        | none => simp [timeWarpToPause, hp, ht]
        | some time =>
            cases hh : pause.hasFrames with
            | none => simp [timeWarpToPause, hp, ht, hh]
            | some hasFrames =>
                simp [pauseAssertGuard, hp, ht, hh] at hg
                by_cases hpe : point = ""
                · simp [timeWarpToPause, hp, ht, hh, hpe]
                · simp [timeWarpToPause, hp, ht, hh, hpe, hg hpe]

/-- C1: a `_findResumeTarget(point, command)` lookup that misses the
cache still returns the remotely resolved target to its immediate
caller, but when the resume-target epoch has been advanced by an
`_invalidateResumeTargets` mutation between the start of the lookup and
the resolution of its remote query (the interference is
`f ∘ invalidateBegin ∘ g` for arbitrary epoch-monotone turns `f`, `g`),
the target is never written into the `resumeTargets` cache: the state
at return is exactly the interfered state.  When instead the epoch is
unchanged over the round trip, the target is memoized under the key
`` `${point}:${command.name}` ``. -/
theorem findResumeTarget_epoch_invalidation (st : ThreadState)
    (point : ExecutionPoint) (command : FindTargetCommand)
    (remote : PauseDescription) (sid : String)
    (hsess : st.sessionId = some sid)
    (hmiss : alookup st.resumeTargets (point ++ ":" ++ commandName command) = none) :
    (∀ f g : ThreadState → ThreadState,
      (∀ s, s.resumeTargetEpoch ≤ (f s).resumeTargetEpoch) →
      (∀ s, s.resumeTargetEpoch ≤ (g s).resumeTargetEpoch) →
      findResumeTarget st point command remote
          (fun s => f (invalidateBegin (g s))) =
        some (remote, f (invalidateBegin (g st)), true)) ∧
    (∀ h : ThreadState → ThreadState,
      (h st).resumeTargetEpoch = st.resumeTargetEpoch →
      findResumeTarget st point command remote h =
        some (remote,
          { h st with
            resumeTargets :=
              aset (h st).resumeTargets
                (point ++ ":" ++ commandName command) remote }, true) ∧
      alookup (aset (h st).resumeTargets
          (point ++ ":" ++ commandName command) remote)
          (point ++ ":" ++ commandName command) = some remote) := by
  constructor
  · intro f g hf hg
    have hlt : st.resumeTargetEpoch < (f (invalidateBegin (g st))).resumeTargetEpoch := by
      calc st.resumeTargetEpoch ≤ (g st).resumeTargetEpoch := hg st
        _ < (invalidateBegin (g st)).resumeTargetEpoch := by
              simp [invalidateBegin]
        _ ≤ (f (invalidateBegin (g st))).resumeTargetEpoch := hf _
    simp [findResumeTarget, hsess, hmiss, hlt.ne]
  · intro h hEq
    refine ⟨?_, alookup_aset_self _ _ _⟩
    simp [findResumeTarget, hsess, hmiss, hEq]

theorem findResumeTarget_epoch_invalidation_witness :
    findResumeTarget sampleState "p" FindTargetCommand.findStepInTarget
        { point := "q", time := 3, frame := none }
        (fun s => invalidateBegin s) =
      some ({ point := "q", time := 3, frame := none },
        invalidateBegin sampleState, true) :=
  (findResumeTarget_epoch_invalidation sampleState "p"
      FindTargetCommand.findStepInTarget
      { point := "q", time := 3, frame := none } "session" rfl rfl).1
    id id (fun _ => Nat.le_refl _) (fun _ => Nat.le_refl _)

/-- C4: calling `_findResumeTarget(point, command)` twice with no
intervening invalidation and no epoch change (interference `id`)
returns on the second call exactly the target object the first call
produced and cached: the second call issues no remote round-trip — its
result does not even depend on the remote oracle `remote'` — and leaves
the state unchanged. -/
theorem findResumeTarget_idempotent (st : ThreadState)
    (point : ExecutionPoint) (command : FindTargetCommand)
    (remote remote' target : PauseDescription) (st1 : ThreadState) (rt : Bool)
    (h : findResumeTarget st point command remote id = some (target, st1, rt)) :
    findResumeTarget st1 point command remote' id = some (target, st1, false) := by
  cases hs : st.sessionId with
  | none => simp [findResumeTarget, hs] at h
  | some sid =>
      cases hm : alookup st.resumeTargets (point ++ ":" ++ commandName command) with
      | some known =>
          simp [findResumeTarget, hs, hm] at h
          obtain ⟨h1, h2, h3⟩ := h
          subst h1
          subst h2
          simp [findResumeTarget, hs, hm]
      | none =>
          simp [findResumeTarget, hs, hm] at h
          obtain ⟨h1, h2, h3⟩ := h
          subst h1
          subst h2
          simp [findResumeTarget, hs, alookup_aset_self]

theorem findResumeTarget_idempotent_witness :
    findResumeTarget
        { sampleState with
          resumeTargets :=
            [("5:findResumeTarget", { point := "7", time := 7, frame := none })] }
        "5" FindTargetCommand.findResumeTarget
        { point := "9", time := 9, frame := some () } id =
      some ({ point := "7", time := 7, frame := none },
        { sampleState with
          resumeTargets :=
            [("5:findResumeTarget", { point := "7", time := 7, frame := none })] },
        false) :=
  findResumeTarget_idempotent sampleState "5" FindTargetCommand.findResumeTarget
    { point := "7", time := 7, frame := none }
    { point := "9", time := 9, frame := some () }
    { point := "7", time := 7, frame := none }
    { sampleState with
      resumeTargets :=
        [("5:findResumeTarget", { point := "7", time := 7, frame := none })] }
    true rfl

/-- C5: `_invalidateResumeTargets(callback)` synchronously clears the
whole resume-target cache, advances the epoch and bumps the
pending-mutation counter before the callback runs; whatever the
callback does to the state and however its promise settles (`ok` true
or false), the `finally` clause decrements the counter, and exactly
when it reaches zero every waiter registered via
`waitForInvalidateCommandsToFinish` is released and speculative
pre-caching is re-triggered; `waitForInvalidateCommandsToFinish`
returns immediately (no awaitable) when the counter is already zero,
and otherwise registers a waiter. -/
theorem invalidateResumeTargets_protocol (st : ThreadState)
    (callback : ThreadState → ThreadState × Bool) (w : Nat) :
    ((invalidateBegin st).resumeTargets = [] ∧
      (invalidateBegin st).resumeTargetEpoch = st.resumeTargetEpoch + 1 ∧
      (invalidateBegin st).numPendingInvalidateCommands =
        st.numPendingInvalidateCommands + 1) ∧
    (∀ st2 ok, callback (invalidateBegin st) = (st2, ok) →
      invalidateResumeTargets st callback =
        ((invalidateFinish st2).1, (invalidateFinish st2).2.1,
          (invalidateFinish st2).2.2, ok) ∧
      (invalidateFinish st2).1.numPendingInvalidateCommands =
        st2.numPendingInvalidateCommands - 1 ∧
      (st2.numPendingInvalidateCommands - 1 = 0 →
        (invalidateFinish st2).2.1 = st2.invalidateCommandWaiters ∧
        (invalidateFinish st2).2.2 = true ∧
        (invalidateFinish st2).1.invalidateCommandWaiters = []) ∧
      (st2.numPendingInvalidateCommands - 1 ≠ 0 →
        (invalidateFinish st2).2.1 = [] ∧
        (invalidateFinish st2).2.2 = false ∧
        (invalidateFinish st2).1.invalidateCommandWaiters =
          st2.invalidateCommandWaiters)) ∧
    (st.numPendingInvalidateCommands = 0 →
      waitForInvalidateCommandsToFinish st w = (st, none)) ∧
    (st.numPendingInvalidateCommands ≠ 0 →
      (waitForInvalidateCommandsToFinish st w).2 = some w ∧
      (waitForInvalidateCommandsToFinish st w).1.invalidateCommandWaiters =
        st.invalidateCommandWaiters ++ [w]) := by
  refine ⟨⟨rfl, rfl, rfl⟩, ?_, ?_, ?_⟩
  · intro st2 ok hcb
    refine ⟨?_, ?_, ?_, ?_⟩
    · simp [invalidateResumeTargets, hcb]
    · by_cases hz : st2.numPendingInvalidateCommands - 1 = 0 <;>
        simp [invalidateFinish, hz]
    · intro hz
      simp [invalidateFinish, hz]
    · intro hz
      simp [invalidateFinish, hz]
  · intro hz
    simp [waitForInvalidateCommandsToFinish, hz]
  · intro hz
    simp [waitForInvalidateCommandsToFinish, hz]

/-- C8: a `setBreakpoint` call whose remote `Debugger.setBreakpoint`
request rejects (invalid location for the source) surfaces no error to
its caller — the outcome handed back is a resolution — and records no
breakpoint entry; the operation is only a partial no-op: the
invalidation prologue has still cleared the resume-target cache and
advanced the epoch, and the pending-mutation counter is back to its old
value. -/
theorem setBreakpoint_swallows_failure (st : ThreadState) (location : Location) :
    (setBreakpoint st location (Except.error ())).2.2.2 = Except.ok () ∧
    (setBreakpoint st location (Except.error ())).1.breakpoints = st.breakpoints ∧
    (setBreakpoint st location (Except.error ())).1.resumeTargets = [] ∧
    (setBreakpoint st location (Except.error ())).1.resumeTargetEpoch =
      st.resumeTargetEpoch + 1 ∧
    (setBreakpoint st location (Except.error ())).1.numPendingInvalidateCommands =
      st.numPendingInvalidateCommands := by
  cases hs : st.sessionId <;>
    by_cases hz : st.numPendingInvalidateCommands = 0 <;>
      simp [setBreakpoint, invalidateResumeTargets, invalidateBegin,
        invalidateFinish, hs, hz]

/-- C2: every resume-family operation (`resume`, `rewind`, `stepOver`,
`stepIn`, `stepOut`, `reverseStepOver` — all instances of
`_resumeOperation` over the six commands) emits exactly one `"resumed"`
event, strictly before the single `"paused"` event produced by the
final warp to the resolved target, under both schedulings of the race:
the remote resolution completing before the deferred resumed-emission
tick (`resolveFirst`) and after it (`tickFirst`). -/
theorem resumeOperation_resumed_before_paused (st : ThreadState)
    (command : FindTargetCommand) (selectedPoint : ExecutionPoint)
    (remote : PauseDescription) (interfere : ThreadState → ThreadState)
    (sched : ResumeSchedule) (sid : String) (hsess : st.sessionId = some sid) :
    ∃ st' p t hf,
      resumeOperation st command selectedPoint remote interfere sched =
        some (st', [Event.resumed, Event.paused p t hf]) := by
  have hex : ∃ target st1 b,
      findResumeTarget st
        (if selectedPoint = "" then st.currentPoint else selectedPoint)
        command remote interfere = some (target, st1, b) := by
    cases hm : alookup st.resumeTargets
        ((if selectedPoint = "" then st.currentPoint else selectedPoint) ++ ":" ++
          commandName command) with
    | some known =>
        exact ⟨known, st, false, by simp [findResumeTarget, hsess, hm]⟩
    | none =>
        refine ⟨remote,
          if st.resumeTargetEpoch = (interfere st).resumeTargetEpoch then
            { interfere st with
              resumeTargets :=
                aset (interfere st).resumeTargets
                  ((if selectedPoint = "" then st.currentPoint else
                      selectedPoint) ++ ":" ++ commandName command) remote }
          else interfere st, true, ?_⟩
        simp [findResumeTarget, hsess, hm]
  obtain ⟨target, st1, b, hfind⟩ := hex
  rcases hw : warpDestination st1 target.point target.time
      (some target.frame.isSome) false with ⟨p, t, hf⟩
  refine ⟨(timeWarp st1 target.point target.time
      (some target.frame.isSome) false).1, p, t, hf, ?_⟩
  cases sched <;> simp [resumeOperation, hfind, timeWarp, hw]

theorem resumeOperation_resumed_before_paused_witness :
    ∃ st' p t hf,
      resumeOperation sampleState FindTargetCommand.findStepOverTarget "10"
          { point := "20", time := 200, frame := some () } id
          ResumeSchedule.tickFirst =
        some (st', [Event.resumed, Event.paused p t hf]) :=
  resumeOperation_resumed_before_paused sampleState
    FindTargetCommand.findStepOverTarget "10"
    { point := "20", time := 200, frame := some () } id
    ResumeSchedule.tickFirst "session" rfl

/-- C6: for a registered pair of sources — `G` of a kind that is
neither source mapped nor pretty printed, `O` a source-mapped original
— with neither source minified and no preference set,
`_chooseSourceId([G, O])` returns `{sourceId: O, alternateId: G}`;
after `preferSource(G, true)`, the same input returns
`{sourceId: G, alternateId: O}`. -/
theorem chooseSourceId_preference (st : ThreadState) (G O : SourceId)
    (infoG infoO : Source)
    (hG : alookup st.sources G = some infoG)
    (hGk1 : infoG.kind ≠ SourceKind.sourceMapped)
    (hGk2 : infoG.kind ≠ SourceKind.prettyPrinted)
    (hO : alookup st.sources O = some infoO)
    (hOk : infoO.kind = SourceKind.sourceMapped)
    (hGm : isMinifiedSource st G = false)
    (hOm : isMinifiedSource st O = false)
    (hpref : st.preferredGeneratedSources = []) :
    chooseSourceId st [G, O] = some ⟨O, some G⟩ ∧
    ∃ st', preferSource st G true = some st' ∧
      chooseSourceId st' [G, O] = some ⟨G, some O⟩ := by
  have hsrc : ∀ pref : List SourceId,
      ({ st with preferredGeneratedSources := pref } : ThreadState).sources =
        st.sources := fun _ => rfl
  have hmin : ∀ (pref : List SourceId) (id : SourceId),
      isMinifiedSource { st with preferredGeneratedSources := pref } id =
        isMinifiedSource st id := fun _ _ => rfl
  have hkind : ∀ (pref : List SourceId) (id : SourceId),
      getSourceKind { st with preferredGeneratedSources := pref } id =
        getSourceKind st id := fun _ _ => rfl
  have hres : ∀ (pref : List SourceId) (info : Source),
      resolveKind { st with preferredGeneratedSources := pref } info =
        resolveKind st info := fun _ _ => rfl
  have hchoose : ∀ pref : List SourceId,
      chooseSourceId { st with preferredGeneratedSources := pref } [G, O] =
        if G ∈ pref then some ⟨G, some O⟩ else some ⟨O, some G⟩ := by
    intro pref
    by_cases hh : infoG.kind = SourceKind.html <;>
      simp [chooseSourceId, chooseSourceIdAux, resolveKind, getSourceKind,
        hsrc, hmin, hkind, hres, hG, hO, hOk, hGk1, hGk2, hGm, hOm, hh]
  have hst : { st with preferredGeneratedSources := st.preferredGeneratedSources } = st := rfl
  constructor
  · have h1 := hchoose st.preferredGeneratedSources
    rw [hst] at h1
    rw [h1]
    simp [hpref]
  · refine ⟨{ st with preferredGeneratedSources := [G] }, ?_, ?_⟩
    · simp [preferSource, isSourceMappedSource, hG, resolveKind, hGk2, hGk1, hpref]
    · rw [hchoose [G]]
      simp

theorem chooseSourceId_preference_witness :
    chooseSourceId pairState ["G", "O"] =
      some { sourceId := "O", alternateId := some "G" } ∧
    ∃ st', preferSource pairState "G" true = some st' ∧
      chooseSourceId st' ["G", "O"] =
        some { sourceId := "G", alternateId := some "O" } :=
  chooseSourceId_preference pairState "G" "O" srcGen srcOrig rfl
    (by decide) (by decide) rfl rfl rfl rfl rfl

/-- C7: `_groupSourceIds` partitions its input by transitive
reachability over the generated/original adjacency (following
`generatedSourceIds` edges and the reverse `originalSources` edges):
for any three distinct ids where `A` is an original of the generated
`X` (edge `A → X` and reverse edge `X → A`) and `B` is unrelated, the
input `[A, X, B]` is partitioned into exactly the connected group
`[A, X]` and the singleton `[B]`. -/
theorem groupSourceIds_partitions (st : ThreadState) (A X B : SourceId)
    (sA sX sB : Source)
    (hAX : A ≠ X) (hAB : A ≠ B) (hXB : X ≠ B)
    (hsrc : st.sources = [(A, sA), (X, sX), (B, sB)])
    (hgA : sA.generatedSourceIds = some [X])
    (hgX : sX.generatedSourceIds = none)
    (hgB : sB.generatedSourceIds = none)
    (horig : st.originalSources = [(X, [A])]) :
    groupSourceIds st [A, X, B] = some [[A, X], [B]] := by
  have hXA : X ≠ A := hAX.symm
  have hBA : B ≠ A := hAB.symm
  have hBX : B ≠ X := hXB.symm
  have hfuel : altFuel st = 6 := by
    simp [altFuel, hsrc, horig, hgA, hgX, hgB]
  simp [groupSourceIds, groupSourceIdsAux, getAlternateSourceIds, hfuel,
    altSourceIdsAux, pushAll, alookup, hsrc, horig, hgA, hgX, hgB,
    hAX, hAB, hXB, hXA, hBA, hBX, List.contains, List.elem_eq_mem]

/-- The partition loop of `_groupSourceIds` computes, for any fuel on
which it succeeds, exactly the partition of its input into
reachability clusters, provided the adjacency is symmetric (the
registry invariant: `originalSources` is the reverse of the
`generatedSourceIds` edges). -/
theorem groupSourceIdsAux_partition (st : ThreadState)
    (hsym : ∀ a b, step st a b → step st b a) :
    ∀ (n : Nat) (ids : List SourceId) (groups : List (List SourceId)),
      groupSourceIdsAux st n ids = some groups →
      ((∀ x, (∃ g ∈ groups, x ∈ g) ↔ x ∈ ids) ∧
       (∀ g ∈ groups, ∀ a ∈ g, ∀ b ∈ g, Reach st a b) ∧
       (∀ g ∈ groups, ∀ g' ∈ groups, ∀ a ∈ g, ∀ b ∈ g',
          Reach st a b → g = g')) := by
  have hRsym : ∀ a b, Reach st a b → Reach st b a := fun a b hab =>
    Relation.ReflTransGen.symmetric (fun x y hxy => hsym x y hxy) hab
  intro n
  induction n with
  | zero =>
      intro ids groups h
      cases ids with
      | nil =>
          simp [groupSourceIdsAux] at h
          subst h
          simp
      | cons id rest => simp [groupSourceIdsAux] at h
  | succ n ih =>
      intro ids groups h
      cases ids with
      | nil =>
          simp [groupSourceIdsAux] at h
          subst h
          simp
      | cons id rest =>
          simp only [groupSourceIdsAux] at h
          cases halt : getAlternateSourceIds st id with
          | none => rw [halt] at h; cases h
          | some alt =>
              simp only [halt] at h
              cases hrec : groupSourceIdsAux st n
                  ((id :: rest).filter
                    (fun i => !(alt.filter
                      (fun i => (id :: rest).contains i)).contains i)) with
              | none => simp only [hrec] at h; simp at h
              | some gs =>
                  simp only [hrec] at h
                  injection h with h
                  subst h
                  obtain ⟨ihcov, ihconn, ihsep⟩ := ih _ _ hrec
                  have hmem_alt := getAlternateSourceIds_mem st id alt halt
                  have hgroup : ∀ x,
                      (x ∈ alt.filter (fun i => (id :: rest).contains i)) ↔
                        (Reach st id x ∧ x ∈ id :: rest) := by
                    intro x
                    simp [List.mem_filter, List.contains, List.elem_eq_mem,
                      hmem_alt x]
                  have hids1 : ∀ x,
                      (x ∈ (id :: rest).filter
                        (fun i => !(alt.filter
                          (fun i => (id :: rest).contains i)).contains i)) ↔
                        (x ∈ id :: rest ∧ ¬Reach st id x) := by
                    intro x
                    have hcontains : ∀ (L : List SourceId) (y : SourceId),
                        L.contains y = true ↔ y ∈ L := by
                      intro L y
                      simp [List.contains, List.elem_eq_mem]
                    rw [List.mem_filter]
                    constructor
                    · rintro ⟨hx0, hxc⟩
                      refine ⟨hx0, fun hr => ?_⟩
                      have hxin : x ∈ alt.filter
                          (fun i => (id :: rest).contains i) :=
                        (hgroup x).mpr ⟨hr, hx0⟩
                      rw [(hcontains _ x).mpr hxin] at hxc
                      simp at hxc
                    · rintro ⟨hx0, hr⟩
                      refine ⟨hx0, ?_⟩
                      cases hcb : (alt.filter
                          (fun i => (id :: rest).contains i)).contains x with
                      | false => rfl
                      | true =>
                          exact absurd
                            ((hgroup x).mp ((hcontains _ x).mp hcb)).1 hr
                  refine ⟨?_, ?_, ?_⟩
                  · intro x
                    constructor
                    · rintro ⟨g, hg, hxg⟩
                      rcases List.mem_cons.mp hg with rfl | hg
                      · exact ((hgroup x).mp hxg).2
                      · exact ((hids1 x).mp ((ihcov x).mp ⟨g, hg, hxg⟩)).1
                    · intro hx
                      by_cases hr : Reach st id x
                      · exact ⟨_, List.mem_cons_self _ _, (hgroup x).mpr ⟨hr, hx⟩⟩
                      · obtain ⟨g, hg, hxg⟩ :=
                          (ihcov x).mpr ((hids1 x).mpr ⟨hx, hr⟩)
                        exact ⟨g, List.mem_cons_of_mem _ hg, hxg⟩
                  · intro g hg a ha b hb
                    rcases List.mem_cons.mp hg with rfl | hg
                    · exact Relation.ReflTransGen.trans
                        (hRsym _ _ ((hgroup a).mp ha).1) ((hgroup b).mp hb).1
                    · exact ihconn g hg a ha b hb
                  · intro g hg g' hg' a ha b hb hab
                    rcases List.mem_cons.mp hg with rfl | hg <;>
                      rcases List.mem_cons.mp hg' with rfl | hg'
                    · rfl
                    · exact absurd (Relation.ReflTransGen.trans
                          ((hgroup a).mp ha).1 hab)
                        ((hids1 b).mp ((ihcov b).mp ⟨g', hg', hb⟩)).2
                    · exact absurd (Relation.ReflTransGen.trans
                          ((hgroup b).mp hb).1 (hRsym _ _ hab))
                        ((hids1 a).mp ((ihcov a).mp ⟨g, hg, ha⟩)).2
                    · exact ihsep g hg g' hg' a ha b hb hab

/-- C7: `_groupSourceIds` partitions any input list of source ids into
clusters by transitive reachability over the generated/original
adjacency (following `generatedSourceIds` edges and the reverse edges
kept in `originalSources`): under the registry invariant that the
adjacency is symmetric, whenever the walk completes, the produced
groups cover exactly the input ids, ids in a common group are related
by `Reach`, and related ids never land in separate groups — unrelated
ids therefore land in separate groups. -/
theorem groupSourceIds_reachability_partition (st : ThreadState)
    (ids : List SourceId) (groups : List (List SourceId))
    (hsym : ∀ a b, step st a b → step st b a)
    (hrun : groupSourceIds st ids = some groups) :
    (∀ x, (∃ g ∈ groups, x ∈ g) ↔ x ∈ ids) ∧
    (∀ g ∈ groups, ∀ a ∈ g, ∀ b ∈ g, Reach st a b) ∧
    (∀ g ∈ groups, ∀ g' ∈ groups, ∀ a ∈ g, ∀ b ∈ g',
       Reach st a b → g = g') :=
  groupSourceIdsAux_partition st hsym ids.length ids groups hrun

/-- The generated/original adjacency of `tripleState` is symmetric:
`"A" → "X"` by the generated edge and `"X" → "A"` by the reverse
edge. -/
theorem tripleState_step_symm :
    ∀ a b, step tripleState a b → step tripleState b a := by
  rintro a b ⟨info, ha, hb⟩
  by_cases h1 : "A" = a
  · subst h1
    simp [tripleState, sampleState, alookup] at ha hb
    subst ha
    simp at hb
    subst hb
    exact ⟨_, rfl, Or.inr (by simp [tripleState, sampleState, alookup])⟩
  · by_cases h2 : "X" = a
    · subst h2
      simp [tripleState, sampleState, alookup] at ha hb
      subst ha
      simp at hb
      subst hb
      exact ⟨_, rfl, Or.inl (by simp [tripleState, sampleState, alookup])⟩
    · by_cases h3 : "B" = a
      · subst h3
        simp [tripleState, sampleState, alookup] at ha hb
        subst ha
        simp at hb
      · simp [tripleState, sampleState, alookup, h1, h2, h3] at ha

theorem groupSourceIds_reachability_partition_witness :
    (∀ x, (∃ g ∈ [["A", "X"], ["B"]], x ∈ g) ↔ x ∈ ["A", "X", "B"]) ∧
    (∀ g ∈ [["A", "X"], ["B"]], ∀ a ∈ g, ∀ b ∈ g, Reach tripleState a b) ∧
    (∀ g ∈ [["A", "X"], ["B"]], ∀ g' ∈ [["A", "X"], ["B"]],
      ∀ a ∈ g, ∀ b ∈ g', Reach tripleState a b → g = g') :=
  groupSourceIds_reachability_partition tripleState ["A", "X", "B"]
    [["A", "X"], ["B"]] tripleState_step_symm rfl

end ThreadFront
